import Mathlib

/-!
Verification of the Phrase-Forge spaced-repetition core.

The TypeScript sources are embedded shallowly:

* JavaScript `Date` values are modelled as `DateTime`: a proleptic-Gregorian
  calendar date (`PFDate`) plus a millisecond offset within the day; `Date`
  comparison (epoch-millisecond order) is `toMillis`.
* `date-fns` `addDays`/`addWeeks`/`addMonths` are modelled by day iteration
  and by month arithmetic with end-of-month clamping, exactly their
  documented calendar semantics.
* JavaScript numbers carrying review difficulties are modelled as exact
  rationals (`ℚ`); `Math.round` is `jsRound`.
* Functions in `services/db.service.ts` and `stores/phrase.store.ts` become
  pure state transformers; a thrown `Error` becomes `Except.error`.
-/

/-- A calendar date: year, month (1–12), day (1–…). -/
structure PFDate where
  y : ℕ
  m : ℕ
  d : ℕ
deriving DecidableEq, Repr

/-- Gregorian leap-year rule (as used by JavaScript `Date` / date-fns). -/
def isLeapYear (y : ℕ) : Bool :=
  y % 4 == 0 && (y % 100 != 0 || y % 400 == 0)

/-- Number of days in month `m` of year `y`. -/
def daysInMonth (y m : ℕ) : ℕ :=
  match m with
  | 1 => 31
  | 2 => if isLeapYear y then 29 else 28
  | 3 => 31
  | 4 => 30
  | 5 => 31
  | 6 => 30
  | 7 => 31
  | 8 => 31
  | 9 => 30
  | 10 => 31
  | 11 => 30
  | 12 => 31
  | _ => 30

/-- Days strictly before month `m` within year `y`. -/
def daysBeforeMonth (y m : ℕ) : ℕ :=
  (match m with
   | 1 => 0
   | 2 => 31
   | 3 => 59
   | 4 => 90
   | 5 => 120
   | 6 => 151
   | 7 => 181
   | 8 => 212
   | 9 => 243
   | 10 => 273
   | 11 => 304
   | 12 => 334
   | _ => 0)
  + (if 3 ≤ m ∧ isLeapYear y then 1 else 0)

/-- Number of leap years in `1, …, y-1`. -/
def leapsBefore (y : ℕ) : ℕ :=
  (y - 1) / 4 - (y - 1) / 100 + (y - 1) / 400

/-- Rata-die style ordinal of a date: strictly monotone in calendar order. -/
def dateOrd (dt : PFDate) : ℕ :=
  365 * (dt.y - 1) + leapsBefore dt.y + daysBeforeMonth dt.y dt.m + dt.d

/-- A well-formed calendar date (year at least 1). -/
def ValidDate (dt : PFDate) : Prop :=
  1 ≤ dt.y ∧ 1 ≤ dt.m ∧ dt.m ≤ 12 ∧ 1 ≤ dt.d ∧ dt.d ≤ daysInMonth dt.y dt.m

instance (dt : PFDate) : Decidable (ValidDate dt) := by
  unfold ValidDate
  infer_instance

/-- The calendar day after `dt`. -/
def nextDay (dt : PFDate) : PFDate :=
  if dt.d < daysInMonth dt.y dt.m then ⟨dt.y, dt.m, dt.d + 1⟩
  else if dt.m < 12 then ⟨dt.y, dt.m + 1, 1⟩
  else ⟨dt.y + 1, 1, 1⟩

/-- The calendar day before `dt`. -/
def prevDay (dt : PFDate) : PFDate :=
  if 1 < dt.d then ⟨dt.y, dt.m, dt.d - 1⟩
  else if 1 < dt.m then ⟨dt.y, dt.m - 1, daysInMonth dt.y (dt.m - 1)⟩
  else ⟨dt.y - 1, 12, 31⟩

/-- Add `n` calendar days (date-fns `addDays` on the date part). -/
def addDaysD (dt : PFDate) : ℕ → PFDate
  | 0 => dt
  | n + 1 => nextDay (addDaysD dt n)

/-- Subtract `n` calendar days (JS `setDate(getDate() - n)`). -/
def subDaysD (dt : PFDate) : ℕ → PFDate
  | 0 => dt
  | n + 1 => prevDay (subDaysD dt n)

/-- Add `n` calendar months, clamping the day to the target month's length
(date-fns `addMonths`). -/
def addMonthsD (dt : PFDate) (n : ℕ) : PFDate :=
  let t := dt.m - 1 + n
  let y := dt.y + t / 12
  let m := t % 12 + 1
  ⟨y, m, min dt.d (daysInMonth y m)⟩

/-- A JavaScript `Date`: calendar date plus milliseconds within the day. -/
structure DateTime where
  date : PFDate
  ms : ℕ
deriving DecidableEq, Repr

/-- Epoch-style millisecond count; JS `Date` comparison compares these. -/
def toMillis (t : DateTime) : ℕ :=
  dateOrd t.date * 86400000 + t.ms

/-- `setHours(23, 59, 59, 999)`: the last millisecond of `t`'s day. -/
def endOfDay (t : DateTime) : DateTime :=
  ⟨t.date, 86399999⟩

/-- date-fns `addDays` (time of day preserved). -/
def addDays (t : DateTime) (n : ℕ) : DateTime :=
  ⟨addDaysD t.date n, t.ms⟩

/-- date-fns `addWeeks`: `addDays` of `7 * n`. -/
def addWeeks (t : DateTime) (n : ℕ) : DateTime :=
  addDays t (7 * n)

/-- date-fns `addMonths` (time of day preserved). -/
def addMonths (t : DateTime) (n : ℕ) : DateTime :=
  ⟨addMonthsD t.date n, t.ms⟩

theorem daysInMonth_pos (y m : ℕ) : 1 ≤ daysInMonth y m := by
  unfold daysInMonth
  split <;> first | omega | (split_ifs <;> omega)

theorem leapsBefore_succ (y : ℕ) (hy : 1 ≤ y) :
    leapsBefore (y + 1) = leapsBefore y + (if isLeapYear y then 1 else 0) := by
  unfold leapsBefore isLeapYear
  split_ifs with h
  · simp only [Bool.and_eq_true, beq_iff_eq, Bool.or_eq_true, bne_iff_ne] at h
    omega
  · simp only [Bool.and_eq_true, beq_iff_eq, Bool.or_eq_true, bne_iff_ne] at h
    push_neg at h
    omega

theorem daysBeforeMonth_succ (y m : ℕ) (hm1 : 1 ≤ m) (hm2 : m < 12) :
    daysBeforeMonth y (m + 1) = daysBeforeMonth y m + daysInMonth y m := by
  interval_cases m <;> cases hL : isLeapYear y <;>
    simp [daysBeforeMonth, daysInMonth, hL]

theorem daysBeforeMonth_one (y : ℕ) : daysBeforeMonth y 1 = 0 := by
  simp [daysBeforeMonth]

theorem daysBeforeMonth_twelve (y : ℕ) :
    daysBeforeMonth y 12 = 334 + (if isLeapYear y then 1 else 0) := by
  simp [daysBeforeMonth]

theorem dateOrd_nextDay (dt : PFDate) (h : ValidDate dt) :
    dateOrd (nextDay dt) = dateOrd dt + 1 := by
  obtain ⟨y, m, d⟩ := dt
  obtain ⟨hy, hm1, hm2, hd1, hd2⟩ := h
  dsimp only at hy hm1 hm2 hd1 hd2
  unfold nextDay
  dsimp only
  split_ifs with h1 h2
  · simp only [dateOrd]
    omega
  · have hs := daysBeforeMonth_succ y m hm1 h2
    simp only [dateOrd]
    omega
  · have hm : m = 12 := by omega
    subst hm
    have h31 : daysInMonth y 12 = 31 := rfl
    have hd : d = 31 := by omega
    subst hd
    have hls := leapsBefore_succ y hy
    simp only [dateOrd]
    rw [daysBeforeMonth_one, daysBeforeMonth_twelve, hls]
    cases hL : isLeapYear y <;> simp [hL] <;> omega

theorem validDate_nextDay (dt : PFDate) (h : ValidDate dt) :
    ValidDate (nextDay dt) := by
  obtain ⟨y, m, d⟩ := dt
  obtain ⟨hy, hm1, hm2, hd1, hd2⟩ := h
  dsimp only at hy hm1 hm2 hd1 hd2
  unfold nextDay
  dsimp only
  split_ifs with h1 h2
  · exact ⟨hy, hm1, hm2, show 1 ≤ d + 1 by omega, show d + 1 ≤ daysInMonth y m by omega⟩
  · exact ⟨hy, show 1 ≤ m + 1 by omega, show m + 1 ≤ 12 by omega, le_refl 1,
      daysInMonth_pos y (m + 1)⟩
  · exact ⟨show 1 ≤ y + 1 by omega, le_refl 1, show (1 : ℕ) ≤ 12 by omega,
      le_refl 1, daysInMonth_pos (y + 1) 1⟩

theorem dateOrd_addDaysD (dt : PFDate) (h : ValidDate dt) (n : ℕ) :
    dateOrd (addDaysD dt n) = dateOrd dt + n ∧ ValidDate (addDaysD dt n) := by
  induction n with
  | zero => exact ⟨rfl, h⟩
  | succ n ih =>
    refine ⟨?_, validDate_nextDay _ ih.2⟩
    rw [addDaysD, dateOrd_nextDay _ ih.2, ih.1]
    omega

theorem dateOrd_addMonthsD_one (dt : PFDate) (h : ValidDate dt) :
    dateOrd dt + 28 ≤ dateOrd (addMonthsD dt 1) := by
  obtain ⟨y, m, d⟩ := dt
  obtain ⟨hy, hm1, hm2, hd1, hd2⟩ := h
  dsimp only at hy hm1 hm2 hd1 hd2
  have hls := leapsBefore_succ y hy
  interval_cases m <;> cases hL : isLeapYear y <;>
    simp only [hL, if_true, if_false] at hls <;>
      simp [addMonthsD, dateOrd, daysBeforeMonth, daysInMonth, hL, min_def] at hd2 ⊢ <;>
        split_ifs <;> omega

theorem toMillis_addDays (t : DateTime) (h : ValidDate t.date) (n : ℕ) :
    toMillis (addDays t n) = toMillis t + n * 86400000 := by
  unfold toMillis addDays
  rw [(dateOrd_addDaysD t.date h n).1]
  ring

theorem toMillis_addMonths_one (t : DateTime) (h : ValidDate t.date) :
    toMillis t + 28 * 86400000 ≤ toMillis (addMonths t 1) := by
  unfold toMillis addMonths
  dsimp only
  have := dateOrd_addMonthsD_one t.date h
  omega

/-! ## `utils/sampleData.ts` (srs.service): interval table and scheduling -/

/-- The `ReviewInterval` union type from `types/models.ts`. -/
inductive ReviewInterval where
  | tomorrow
  | three_days
  | one_week
  | two_weeks
  | one_month
deriving DecidableEq, Repr

/-- One entry of the `REVIEW_INTERVALS` record. -/
structure IntervalInfo where
  label : String
  getDays : ℕ
deriving DecidableEq, Repr

/-- `REVIEW_INTERVALS`: the fixed interval table. -/
def REVIEW_INTERVALS : ReviewInterval → IntervalInfo
  | .tomorrow => ⟨"翌日", 1⟩
  | .three_days => ⟨"三日後", 3⟩
  | .one_week => ⟨"一週間後", 7⟩
  | .two_weeks => ⟨"二週間後", 14⟩
  | .one_month => ⟨"一ヶ月後", 30⟩

/-- The runtime string value of a `ReviewInterval` member. -/
def intervalName : ReviewInterval → String
  | .tomorrow => "tomorrow"
  | .three_days => "three_days"
  | .one_week => "one_week"
  | .two_weeks => "two_weeks"
  | .one_month => "one_month"

/-- `calculateNextReviewDate`; the source reads the clock (`new Date()`)
internally, which is passed here as the explicit parameter `now`. -/
def calculateNextReviewDate (interval : ReviewInterval) (now : DateTime) : DateTime :=
  let days := (REVIEW_INTERVALS interval).getDays
  if days ≤ 7 then addDays now days
  else if days ≤ 14 then addWeeks now (days / 7)
  else addMonths now (days / 30)

/-- A `ReviewRecord` (`types/models.ts`). Its `interval` field is a plain
string at runtime (`interval as any` in `db.service.ts`), so it is
modelled as `String`; `difficulty` is a JS number, modelled as `ℚ`. -/
structure ReviewRecord where
  date : DateTime
  interval : String
  difficulty : ℚ
deriving DecidableEq, Repr

/-- `calculateSuccessRate`: 1 minus the mean difficulty of the most recent
at-most-5 records (`slice(-5)` is `drop (length - 5)`). -/
def calculateSuccessRate (reviewHistory : List ReviewRecord) : ℚ :=
  if reviewHistory.length = 0 then 0
  else
    let recentReviews := reviewHistory.drop (reviewHistory.length - 5)
    let avgDifficulty :=
      (recentReviews.map ReviewRecord.difficulty).sum / (recentReviews.length : ℚ)
    1 - avgDifficulty

/-- `getRecommendedInterval` from `utils/sampleData.ts`, on the runtime
string representation of intervals. -/
def getRecommendedInterval (reviewHistory : List ReviewRecord) : String :=
  match reviewHistory.getLast? with
  | none => "tomorrow"
  | some lastReview =>
    let successRate := calculateSuccessRate reviewHistory
    if (9 : ℚ)/10 ≤ successRate then
      match lastReview.interval with
      | "tomorrow" => "three_days"
      | "three_days" => "one_week"
      | "one_week" => "two_weeks"
      | "two_weeks" => "one_month"
      | "one_month" => "one_month"
      | _ => "tomorrow"
    else if (7 : ℚ)/10 ≤ successRate then
      lastReview.interval
    else
      match lastReview.interval with
      | "one_month" => "two_weeks"
      | "two_weeks" => "one_week"
      | "one_week" => "three_days"
      | "three_days" => "tomorrow"
      | "tomorrow" => "tomorrow"
      | _ => "tomorrow"

/-! ## Data model and `services/db.service.ts` -/

/-- The `Phrase` interface from `types/models.ts`: `pronunciation` is the
only optional field, `tags` is an array of tag ids, and the three `Date`
fields are `DateTime`s. -/
structure Phrase where
  id : String
  english : String
  japanese : String
  pronunciation : Option String
  tags : List String
  categoryId : String
  nextReviewDate : DateTime
  reviewHistory : List ReviewRecord
  createdAt : DateTime
  updatedAt : DateTime
deriving DecidableEq, Repr

/-- The `UserStats` interface from `types/models.ts`: five numeric
counters (JS numbers used integrally, modelled as `ℤ`; `deletePhrase` can
drive `totalPhrases` below zero) and the optional `lastReviewDate`. -/
structure UserStats where
  totalPhrases : ℤ
  phrasesLearned : ℤ
  currentStreak : ℤ
  longestStreak : ℤ
  totalReviews : ℤ
  lastReviewDate : Option DateTime
deriving DecidableEq, Repr

/-- The IndexedDB state relevant to the claims: the `phrases` table and the
single `stats` record (id `'main'`); `categories`/`tags`/`backups` tables
are untouched by the verified operations. -/
structure DB where
  phrases : List Phrase
  stats : UserStats
deriving DecidableEq, Repr

/-- `getTodaysPhrases`: phrases whose `nextReviewDate` is at or before
23:59:59.999 of the current day. The Dexie index query
`where('nextReviewDate').belowOrEqual(today)` is modelled as a filter
(the claimed property concerns membership, not ordering); the clock read
`new Date()` is the parameter `now`. -/
def getTodaysPhrases (db : DB) (now : DateTime) : List Phrase :=
  db.phrases.filter
    (fun p => decide (toMillis p.nextReviewDate ≤ toMillis (endOfDay now)))

/-- `updatePhraseReviewDate`: the review recorder. `phrase.id` is the
primary key of the `phrases` table, so `update(phraseId, …)` is the map
over records with that id; the wall-clock reads `new Date()` are the
parameter `now`; a thrown `Error` is `Except.error`. -/
def updatePhraseReviewDate (db : DB) (phraseId : String) (nextReviewDate : DateTime)
    (interval : String) (difficulty : ℚ) (now : DateTime) : Except String DB :=
  match db.phrases.find? (fun p => p.id == phraseId) with
  | none => .error "Phrase not found"
  | some _ =>
    .ok { phrases := db.phrases.map (fun p =>
            if p.id == phraseId then
              { p with nextReviewDate := nextReviewDate
                       reviewHistory := p.reviewHistory ++ [⟨now, interval, difficulty⟩]
                       updatedAt := now }
            else p)
          stats := { db.stats with totalReviews := db.stats.totalReviews + 1
                                   lastReviewDate := some now } }

/-- The review-completion flow of `ReviewCard.handleIntervalSelect`:
compute the next date with `calculateNextReviewDate`, then call
`updatePhraseReviewDate` with the interval's runtime string. -/
def recordReview (db : DB) (phraseId : String) (interval : ReviewInterval)
    (difficulty : ℚ) (now : DateTime) : Except String DB :=
  updatePhraseReviewDate db phraseId (calculateNextReviewDate interval now)
    (intervalName interval) difficulty now

/-! ## `stores/phrase.store.ts` -/

/-- JS `Math.round`: floor of `q + 1/2`. -/
def jsRound (q : ℚ) : ℤ := ⌊q + 1/2⌋

/-- The per-phrase term of the `averageMastery` reduction:
`latestReview?.difficulty || 0.5`. `?.` yields `undefined` on an empty
history and `|| 0.5` replaces any falsy value — `undefined` and also the
number `0`. -/
def latestDifficultyOrHalf (p : Phrase) : ℚ :=
  match p.reviewHistory.getLast? with
  | none => 1/2
  | some latestReview => if latestReview.difficulty = 0 then 1/2 else latestReview.difficulty

/-- The raw `averageMastery` accumulator of `getStats` (0 for an empty
collection, otherwise the mean of `latestReview?.difficulty || 0.5`). -/
def averageMasteryRaw (phrases : List Phrase) : ℚ :=
  if 0 < phrases.length then
    (phrases.map latestDifficultyOrHalf).sum / (phrases.length : ℚ)
  else 0

/-- The `averageMastery` field of the stats result:
`Math.round(averageMastery * 100)`. -/
def averageMasteryOut (phrases : List Phrase) : ℤ :=
  jsRound (averageMasteryRaw phrases * 100)

/-- One step of the `categoryStats` Map construction: increment the count
of `c` in place, or append it (JS `Map` preserves insertion order). -/
def bumpCategory : List (String × ℕ) → String → List (String × ℕ)
  | [], c => [(c, 1)]
  | (k, n) :: rest, c =>
    if k == c then (k, n + 1) :: rest else (k, n) :: bumpCategory rest c

/-- `categoryStats`: per-category phrase counts in first-seen order. -/
def categoryStatsOf (phrases : List Phrase) : List (String × ℕ) :=
  phrases.foldl (fun acc p => bumpCategory acc p.categoryId) []

/-- The `masteryLevels` histogram. -/
structure MasteryLevels where
  beginner : ℕ
  intermediate : ℕ
  advanced : ℕ
deriving DecidableEq, Repr

/-- `masteryLevels`: partition phrases by review count (0–2 / 3–5 / 6+). -/
def masteryLevelsOf (phrases : List Phrase) : MasteryLevels :=
  phrases.foldl
    (fun acc p =>
      let reviewCount := p.reviewHistory.length
      if reviewCount ≤ 2 then { acc with beginner := acc.beginner + 1 }
      else if reviewCount ≤ 5 then { acc with intermediate := acc.intermediate + 1 }
      else { acc with advanced := acc.advanced + 1 })
    ⟨0, 0, 0⟩

/-- One `dailyStats` entry for `i` days before `now`: the calendar day
(`setHours(0,0,0,0)`) and the number of phrases with at least one review
in `[day start, next day start)`. -/
def dailyStatEntry (phrases : List Phrase) (now : DateTime) (i : ℕ) : PFDate × ℕ :=
  let date : DateTime := ⟨subDaysD now.date i, 0⟩
  let nextDate : DateTime := ⟨nextDay (subDaysD now.date i), 0⟩
  (date.date,
   (phrases.filter (fun p => p.reviewHistory.any (fun review =>
      decide (toMillis date ≤ toMillis review.date) &&
      decide (toMillis review.date < toMillis nextDate)))).length)

/-- `dailyStats`: the trailing 30 calendar days, oldest first
(`for (let i = 29; i >= 0; i--)`). The `YYYY-MM-DD` key string is
represented by the `PFDate` it denotes. -/
def dailyStatsOf (phrases : List Phrase) (now : DateTime) : List (PFDate × ℕ) :=
  (List.range 30).map (fun k => dailyStatEntry phrases now (29 - k))

/-- `monthlyReviews`: reviews dated within the current calendar month,
from its first day at midnight through `new Date(y, m + 1, 0)` — the last
day of the month **at midnight** — inclusive. -/
def monthlyReviewsOf (phrases : List Phrase) (now : DateTime) : ℕ :=
  let firstDayOfMonth : DateTime := ⟨⟨now.date.y, now.date.m, 1⟩, 0⟩
  let lastDayOfMonth : DateTime := ⟨⟨now.date.y, now.date.m, daysInMonth now.date.y now.date.m⟩, 0⟩
  phrases.foldl (fun total p =>
    total + (p.reviewHistory.filter (fun review =>
      decide (toMillis firstDayOfMonth ≤ toMillis review.date) &&
      decide (toMillis review.date ≤ toMillis lastDayOfMonth))).length) 0

/-- The result shape of `getStats`: the spread persisted stats record plus
the computed aggregates. -/
structure StatsSnapshot where
  totalPhrases : ℤ
  phrasesLearned : ℤ
  currentStreak : ℤ
  longestStreak : ℤ
  totalReviews : ℤ
  lastReviewDate : Option DateTime
  categoryStats : List (String × ℕ)
  dailyStats : List (PFDate × ℕ)
  masteryLevels : MasteryLevels
  monthlyReviews : ℕ
  averageMastery : ℤ
deriving DecidableEq, Repr

/-- The cache-miss computation inside `getStats` (every `new Date()` /
`Date.now()` read is the parameter `now`). -/
def computeSnapshot (db : DB) (now : DateTime) : StatsSnapshot :=
  { totalPhrases := db.stats.totalPhrases
    phrasesLearned := db.stats.phrasesLearned
    currentStreak := db.stats.currentStreak
    longestStreak := db.stats.longestStreak
    totalReviews := db.stats.totalReviews
    lastReviewDate := db.stats.lastReviewDate
    categoryStats := categoryStatsOf db.phrases
    dailyStats := dailyStatsOf db.phrases now
    masteryLevels := masteryLevelsOf db.phrases
    monthlyReviews := monthlyReviewsOf db.phrases now
    averageMastery := averageMasteryOut db.phrases }

/-- The Zustand store state (UI-only fields `categories`, `tags`,
`isLoading` are omitted; no verified operation touches them). -/
structure Store where
  db : DB
  phrases : List Phrase
  todaysPhrases : List Phrase
  currentPhraseIndex : ℤ
  statsCache : Option StatsSnapshot
  statsCacheTimestamp : ℤ
  error : Option String
deriving DecidableEq, Repr

/-- `addPhrase` (the generated id and timestamps are already on
`newPhrase`): Dexie add, in-memory append, `totalPhrases++`, cache
invalidation. -/
def addPhrase (s : Store) (newPhrase : Phrase) : Store :=
  { s with db := { phrases := s.db.phrases ++ [newPhrase]
                   stats := { s.db.stats with totalPhrases := s.db.stats.totalPhrases + 1 } }
           phrases := s.phrases ++ [newPhrase]
           statsCache := none }

/-- `updatePhrase`: the object-spread merge `{...p, ...updates}` is the
parameter `updates : Phrase → Phrase`; `updatedAt` is then refreshed;
cache invalidated. -/
def updatePhrase (s : Store) (id : String) (updates : Phrase → Phrase) (now : DateTime) : Store :=
  let apply := fun (p : Phrase) => if p.id == id then { updates p with updatedAt := now } else p
  { s with db := { s.db with phrases := s.db.phrases.map apply }
           phrases := s.phrases.map apply
           statsCache := none }

/-- `deletePhrase`: Dexie `delete(id)` resolves without error whether or
not the key exists; then `totalPhrases--` and cache invalidation. -/
def deletePhrase (s : Store) (id : String) : Store :=
  { s with db := { phrases := s.db.phrases.filter (fun p => !(p.id == id))
                   stats := { s.db.stats with totalPhrases := s.db.stats.totalPhrases - 1 } }
           phrases := s.phrases.filter (fun p => !(p.id == id))
           statsCache := none }

/-- `removeReviewedPhrase`: drop the reviewed phrase from today's queue and
clamp the current index (`max(0, min(index, length - 1))`). -/
def removeReviewedPhrase (s : Store) (phraseId : String) : Store :=
  let newTodaysPhrases := s.todaysPhrases.filter (fun p => !(p.id == phraseId))
  let newIndex := min s.currentPhraseIndex ((newTodaysPhrases.length : ℤ) - 1)
  { s with todaysPhrases := newTodaysPhrases
           currentPhraseIndex := max 0 newIndex }

/-- The full review interaction of `ReviewCard.handleIntervalSelect` at
store level: record the review in the database, then remove the phrase
from today's queue; a thrown error is caught (`console.error`) leaving
the store untouched. -/
def handleIntervalSelect (s : Store) (phraseId : String) (interval : ReviewInterval)
    (difficulty : ℚ) (now : DateTime) : Store :=
  match recordReview s.db phraseId interval difficulty now with
  | .error _ => s
  | .ok db2 => removeReviewedPhrase { s with db := db2 } phraseId

/-- `getStats`: serve the cache while it is younger than 5 minutes
(`CACHE_DURATION = 300000` ms), otherwise recompute and refill the cache.
`Date.now()` is `toMillis now`. -/
def getStats (s : Store) (now : DateTime) : StatsSnapshot × Store :=
  match s.statsCache with
  | some cached =>
    if (toMillis now : ℤ) - s.statsCacheTimestamp < 300000 then (cached, s)
    else
      let result := computeSnapshot s.db now
      (result, { s with statsCache := some result
                        statsCacheTimestamp := (toMillis now : ℤ) })
  | none =>
    let result := computeSnapshot s.db now
    (result, { s with statsCache := some result
                      statsCacheTimestamp := (toMillis now : ℤ) })

/-! ## Helper lemmas -/

theorem calcNRD_tomorrow (now : DateTime) :
    calculateNextReviewDate .tomorrow now = addDays now 1 := rfl

theorem calcNRD_three_days (now : DateTime) :
    calculateNextReviewDate .three_days now = addDays now 3 := rfl

theorem calcNRD_one_week (now : DateTime) :
    calculateNextReviewDate .one_week now = addDays now 7 := rfl

theorem calcNRD_two_weeks_days (now : DateTime) :
    calculateNextReviewDate .two_weeks now = addDays now 14 := rfl

theorem calcNRD_one_month (now : DateTime) :
    calculateNextReviewDate .one_month now = addMonths now 1 := rfl

/-- Updating the phrase with a given primary key rewrites what `find?`
returns for that key, provided the update preserves `id`. -/
theorem find?_map_update (l : List Phrase) (pid : String) (p : Phrase) (f : Phrase → Phrase)
    (hf : ∀ q, (f q).id = q.id) (hp : l.find? (fun q => q.id == pid) = some p) :
    (l.map (fun q => if q.id == pid then f q else q)).find? (fun q => q.id == pid)
      = some (f p) := by
  induction l with
  | nil => simp at hp
  | cons a t ih =>
    by_cases ha : (a.id == pid) = true
    · have hfind : List.find? (fun q => q.id == pid) (a :: t) = some a :=
        List.find?_cons_of_pos t ha
      rw [hfind] at hp
      injection hp with hpa
      subst hpa
      simp only [List.map_cons, if_pos ha]
      have hfa : ((f a).id == pid) = true := by rw [hf a]; exact ha
      exact List.find?_cons_of_pos _ hfa
    · have hfind : List.find? (fun q => q.id == pid) (a :: t)
          = List.find? (fun q => q.id == pid) t :=
        List.find?_cons_of_neg t (by simpa using ha)
      rw [hfind] at hp
      simp only [List.map_cons, if_neg ha]
      have hfind2 : List.find? (fun q => q.id == pid)
            (a :: t.map (fun q => if (q.id == pid) = true then f q else q))
          = List.find? (fun q => q.id == pid)
            (t.map (fun q => if (q.id == pid) = true then f q else q)) :=
        List.find?_cons_of_neg _ (by simpa using ha)
      rw [hfind2]
      exact ih hp

/-! ## Claim theorems -/

/-- C1: a phrase of the collection appears in the due set returned by
`getTodaysPhrases` iff its `nextReviewDate` is at or before the end
(23:59:59.999) of the `now` day, and an empty collection yields the empty
list rather than an error. -/
theorem getTodaysPhrases_due_set (db : DB) (now : DateTime) :
    (∀ p ∈ db.phrases,
      (p ∈ getTodaysPhrases db now ↔
        toMillis p.nextReviewDate ≤ toMillis (endOfDay now))) ∧
    (db.phrases = [] → getTodaysPhrases db now = []) := by
  constructor
  · intro p hp
    simp [getTodaysPhrases, List.mem_filter, hp]
  · intro h
    simp [getTodaysPhrases, h]

def statsZero : UserStats := ⟨0, 0, 0, 0, 0, none⟩

def nowW1 : DateTime := ⟨⟨2024, 3, 10⟩, 43200000⟩

def pDue : Phrase :=
  ⟨"due", "a", "b", none, [], "c", ⟨⟨2024, 3, 10⟩, 80000000⟩, [], nowW1, nowW1⟩

def pLate : Phrase :=
  ⟨"late", "a", "b", none, [], "c", ⟨⟨2024, 3, 11⟩, 0⟩, [], nowW1, nowW1⟩

def dbW1 : DB := ⟨[pDue, pLate], statsZero⟩

/-- C1 witness: in a concrete two-phrase collection, the phrase due the
same day is selected and the phrase due the next morning is not. -/
theorem getTodaysPhrases_due_set_witness :
    pDue ∈ getTodaysPhrases dbW1 nowW1 ∧ pLate ∉ getTodaysPhrases dbW1 nowW1 := by
  have h := (getTodaysPhrases_due_set dbW1 nowW1).1
  constructor
  · exact (h pDue (by decide)).2 (by decide)
  · intro hc
    exact absurd ((h pLate (by decide)).1 hc) (by decide)

/-- C4: the interval table carries the day-counts 1/3/7/14/30, and the next
review date follows the stepped policy — day-counts ≤ 7 add days, ≤ 14 add
`floor(days/7)` weeks, > 14 add `floor(days/30)` months; in particular
`two_weeks` adds 2 calendar weeks and `one_month` adds 1 calendar month. -/
theorem calculateNextReviewDate_policy (now : DateTime) :
    (REVIEW_INTERVALS .tomorrow).getDays = 1 ∧
    (REVIEW_INTERVALS .three_days).getDays = 3 ∧
    (REVIEW_INTERVALS .one_week).getDays = 7 ∧
    (REVIEW_INTERVALS .two_weeks).getDays = 14 ∧
    (REVIEW_INTERVALS .one_month).getDays = 30 ∧
    (∀ i, calculateNextReviewDate i now =
      if (REVIEW_INTERVALS i).getDays ≤ 7 then
        addDays now (REVIEW_INTERVALS i).getDays
      else if (REVIEW_INTERVALS i).getDays ≤ 14 then
        addWeeks now ((REVIEW_INTERVALS i).getDays / 7)
      else addMonths now ((REVIEW_INTERVALS i).getDays / 30)) ∧
    calculateNextReviewDate .tomorrow now = addDays now 1 ∧
    calculateNextReviewDate .three_days now = addDays now 3 ∧
    calculateNextReviewDate .one_week now = addDays now 7 ∧
    calculateNextReviewDate .two_weeks now = addWeeks now 2 ∧
    calculateNextReviewDate .one_month now = addMonths now 1 :=
  ⟨rfl, rfl, rfl, rfl, rfl, fun _ => rfl, rfl, rfl, rfl, rfl, rfl⟩

/-- C10: for any fixed valid reference time, the computed next review date
is monotone in the interval's day-count, across the mixed day/week/month
arithmetic. -/
theorem calculateNextReviewDate_monotone (i j : ReviewInterval) (now : DateTime)
    (hv : ValidDate now.date)
    (hij : (REVIEW_INTERVALS i).getDays < (REVIEW_INTERVALS j).getDays) :
    toMillis (calculateNextReviewDate i now) ≤ toMillis (calculateNextReviewDate j now) := by
  have hmon := toMillis_addMonths_one now hv
  cases i <;> cases j <;>
    first
    | exact absurd hij (by decide)
    | (simp only [calcNRD_tomorrow, calcNRD_three_days, calcNRD_one_week,
        calcNRD_two_weeks_days, calcNRD_one_month,
        toMillis_addDays now hv]
       omega)

/-- C10 witness: at a concrete month-end reference time, the one-week date
precedes the one-month date. -/
theorem calculateNextReviewDate_monotone_witness :
    toMillis (calculateNextReviewDate .one_week ⟨⟨2024, 1, 31⟩, 0⟩) ≤
      toMillis (calculateNextReviewDate .one_month ⟨⟨2024, 1, 31⟩, 0⟩) :=
  calculateNextReviewDate_monotone .one_week .one_month ⟨⟨2024, 1, 31⟩, 0⟩
    (by decide) (by decide)

/-- C2: recording a review on an existing phrase appends exactly one
record `{date: now, interval, difficulty}` to its history (all prior
records unchanged), sets `nextReviewDate` to the calculator's result for
the chosen interval at `now`, refreshes `updatedAt`, and bumps the
persisted review counters. -/
theorem recordReview_appends (db : DB) (phraseId : String) (p : Phrase)
    (interval : ReviewInterval) (difficulty : ℚ) (now : DateTime)
    (hp : db.phrases.find? (fun q => q.id == phraseId) = some p) :
    ∃ db2, recordReview db phraseId interval difficulty now = .ok db2 ∧
      db2.phrases.find? (fun q => q.id == phraseId) = some
        { p with nextReviewDate := calculateNextReviewDate interval now
                 reviewHistory := p.reviewHistory
                   ++ [(⟨now, intervalName interval, difficulty⟩ : ReviewRecord)]
                 updatedAt := now } ∧
      (p.reviewHistory ++ [(⟨now, intervalName interval, difficulty⟩ : ReviewRecord)]).length
        = p.reviewHistory.length + 1 ∧
      (p.reviewHistory ++ [(⟨now, intervalName interval, difficulty⟩ : ReviewRecord)]).take
        p.reviewHistory.length = p.reviewHistory ∧
      db2.stats.totalReviews = db.stats.totalReviews + 1 ∧
      db2.stats.lastReviewDate = some now := by
  have hrec : recordReview db phraseId interval difficulty now = .ok
      ⟨db.phrases.map (fun q =>
          if (q.id == phraseId) = true then
            { q with nextReviewDate := calculateNextReviewDate interval now
                     reviewHistory := q.reviewHistory
                       ++ [(⟨now, intervalName interval, difficulty⟩ : ReviewRecord)]
                     updatedAt := now }
          else q),
        { db.stats with totalReviews := db.stats.totalReviews + 1
                        lastReviewDate := some now }⟩ := by
    unfold recordReview updatePhraseReviewDate
    rw [hp]
  refine ⟨_, hrec, ?_, by simp, by simp, rfl, rfl⟩
  exact find?_map_update db.phrases phraseId p
    (fun q =>
      { q with nextReviewDate := calculateNextReviewDate interval now
               reviewHistory := q.reviewHistory
                 ++ [(⟨now, intervalName interval, difficulty⟩ : ReviewRecord)]
               updatedAt := now })
    (fun q => rfl) hp

def nowW2 : DateTime := ⟨⟨2024, 1, 1⟩, 0⟩

def pW2 : Phrase :=
  ⟨"a", "e", "j", none, [], "c", nowW2,
    [⟨⟨⟨2023, 12, 25⟩, 0⟩, "tomorrow", 1/2⟩], nowW2, nowW2⟩

def dbW2 : DB := ⟨[pW2], statsZero⟩

/-- C2 witness: the theorem applies to a concrete one-phrase database. -/
theorem recordReview_appends_witness :
    ∃ db2, recordReview dbW2 "a" .one_week (1/5) nowW2 = .ok db2 ∧
      db2.phrases.find? (fun q => q.id == "a") = some
        { pW2 with nextReviewDate := calculateNextReviewDate .one_week nowW2
                   reviewHistory := pW2.reviewHistory
                     ++ [(⟨nowW2, intervalName .one_week, 1/5⟩ : ReviewRecord)]
                   updatedAt := nowW2 } ∧
      (pW2.reviewHistory ++ [(⟨nowW2, intervalName .one_week, 1/5⟩ : ReviewRecord)]).length
        = pW2.reviewHistory.length + 1 ∧
      (pW2.reviewHistory ++ [(⟨nowW2, intervalName .one_week, 1/5⟩ : ReviewRecord)]).take
        pW2.reviewHistory.length = pW2.reviewHistory ∧
      db2.stats.totalReviews = dbW2.stats.totalReviews + 1 ∧
      db2.stats.lastReviewDate = some nowW2 :=
  recordReview_appends dbW2 "a" pW2 .one_week (1/5) nowW2 rfl

/-- The five interval names of the `ReviewInterval` union, as runtime
strings. -/
def fiveIntervalNames : List String :=
  ["tomorrow", "three_days", "one_week", "two_weeks", "one_month"]

/-- The spec's promotion chain
`tomorrow→three_days→one_week→two_weeks→one_month`, capped at
`one_month`. -/
def specPromote : String → String
  | "tomorrow" => "three_days"
  | "three_days" => "one_week"
  | "one_week" => "two_weeks"
  | "two_weeks" => "one_month"
  | "one_month" => "one_month"
  | s => s

/-- The spec's demotion chain
`one_month→two_weeks→one_week→three_days→tomorrow`, floored at
`tomorrow`. -/
def specDemote : String → String
  | "one_month" => "two_weeks"
  | "two_weeks" => "one_week"
  | "one_week" => "three_days"
  | "three_days" => "tomorrow"
  | "tomorrow" => "tomorrow"
  | s => s

/-- C3: on a non-empty history whose last record carries one of the five
interval names, the recommendation is driven by
`successRate = 1 − average(difficulty over the last ≤ 5 records)`:
promote one chain step when rate ≥ 0.9, hold when 0.7 ≤ rate < 0.9,
demote one chain step when rate < 0.7. -/
theorem getRecommendedInterval_adaptive (h : List ReviewRecord) (r : ReviewRecord)
    (hlast : h.getLast? = some r) (hmem : r.interval ∈ fiveIntervalNames) :
    getRecommendedInterval h =
      if (9 : ℚ)/10 ≤ 1 - ((h.drop (h.length - 5)).map ReviewRecord.difficulty).sum
          / ((h.drop (h.length - 5)).length : ℚ) then specPromote r.interval
      else if (7 : ℚ)/10 ≤ 1 - ((h.drop (h.length - 5)).map ReviewRecord.difficulty).sum
          / ((h.drop (h.length - 5)).length : ℚ) then r.interval
      else specDemote r.interval := by
  have hne : h ≠ [] := by rintro rfl; simp at hlast
  have hlen : ¬ h.length = 0 := by simpa using hne
  have hsr : calculateSuccessRate h =
      1 - ((h.drop (h.length - 5)).map ReviewRecord.difficulty).sum
        / ((h.drop (h.length - 5)).length : ℚ) := by
    unfold calculateSuccessRate
    rw [if_neg hlen]
  unfold getRecommendedInterval
  rw [hlast]
  dsimp only
  rw [hsr]
  simp only [fiveIntervalNames, List.mem_cons, List.not_mem_nil, or_false] at hmem
  rcases hmem with h1 | h1 | h1 | h1 | h1 <;> rw [h1] <;> split_ifs <;> rfl

/-- C3 witness: one review at difficulty 0.1 on interval `tomorrow` has
success rate 0.9 and is promoted to `three_days` (spec scenario 3). -/
theorem getRecommendedInterval_adaptive_witness :
    getRecommendedInterval [(⟨⟨⟨2024, 1, 1⟩, 0⟩, "tomorrow", 1/10⟩ : ReviewRecord)]
      = "three_days" := by
  rw [getRecommendedInterval_adaptive
    [(⟨⟨⟨2024, 1, 1⟩, 0⟩, "tomorrow", 1/10⟩ : ReviewRecord)]
    ⟨⟨⟨2024, 1, 1⟩, 0⟩, "tomorrow", 1/10⟩ rfl (by norm_num [fiveIntervalNames])]
  norm_num [specPromote]

/-- C8 (amended): the cold start returns `tomorrow`; when the last record's
interval is one of the five names the result is again one of the five;
and an unrecognized last interval falls back to `tomorrow` in the promote
and demote branches — but in the hold branch (0.7 ≤ rate < 0.9) it is
returned unchanged, so the recommender can return a value outside the five
defined intervals. -/
theorem getRecommendedInterval_bounds :
    getRecommendedInterval [] = "tomorrow" ∧
    (∀ h r, h.getLast? = some r → r.interval ∈ fiveIntervalNames →
      getRecommendedInterval h ∈ fiveIntervalNames) ∧
    (∀ h r, h.getLast? = some r → r.interval ∉ fiveIntervalNames →
      ((9 : ℚ)/10 ≤ calculateSuccessRate h ∨ calculateSuccessRate h < (7 : ℚ)/10) →
      getRecommendedInterval h = "tomorrow") := by
  refine ⟨rfl, ?_, ?_⟩
  · intro h r hlast hmem
    unfold getRecommendedInterval
    rw [hlast]
    dsimp only
    simp only [fiveIntervalNames, List.mem_cons, List.not_mem_nil, or_false] at hmem ⊢
    rcases hmem with h1 | h1 | h1 | h1 | h1 <;> rw [h1] <;> split_ifs <;> simp
  · intro h r hlast hmem hrate
    simp only [fiveIntervalNames, List.mem_cons, List.not_mem_nil, or_false] at hmem
    push_neg at hmem
    unfold getRecommendedInterval
    rw [hlast]
    dsimp only
    split_ifs with c1 c2
    · split <;> simp_all
    · rcases hrate with hr | hr
      · exact absurd hr c1
      · exact absurd hr (not_lt.mpr c2)
    · split <;> simp_all

/-- C8 counterexample: a single record with the unrecognized interval
`"bogus"` and difficulty 0.25 (success rate 0.75, the hold branch) makes
`getRecommendedInterval` return `"bogus"`, which is outside the five
defined intervals. -/
theorem getRecommendedInterval_bounds_cex :
    getRecommendedInterval [(⟨⟨⟨2024, 1, 1⟩, 0⟩, "bogus", 1/4⟩ : ReviewRecord)] = "bogus" ∧
    "bogus" ∉ fiveIntervalNames := by
  constructor
  · norm_num [getRecommendedInterval, calculateSuccessRate]
  · decide

/-- C8 witness: the amended theorem applies to a concrete history with a
recognized last interval. -/
theorem getRecommendedInterval_bounds_witness :
    getRecommendedInterval [(⟨⟨⟨2024, 1, 1⟩, 0⟩, "one_month", 0⟩ : ReviewRecord)]
      ∈ fiveIntervalNames :=
  getRecommendedInterval_bounds.2.1 _ _ rfl (by norm_num [fiveIntervalNames])

def dC5 : DateTime := ⟨⟨2024, 2, 1⟩, 0⟩

def pC5 : Phrase := ⟨"a", "e", "j", none, [], "c", dC5, [], dC5, dC5⟩

def dbC5 : DB := ⟨[pC5], statsZero⟩

/-- C5 counterexample: calling the review recorder with difficulty 1.5
does not reject: it succeeds, mutates the phrase (its history grows from
0 to 1 records) and stores the out-of-range value 1.5 verbatim, neither
clamped nor refused. -/
theorem updatePhraseReviewDate_no_validation_cex :
    (updatePhraseReviewDate dbC5 "a" dC5 "one_week" (3/2) dC5).toOption.map
        (fun db2 => db2.phrases.map (fun p => p.reviewHistory.map ReviewRecord.difficulty))
      = some [[3/2]] ∧
    (updatePhraseReviewDate dbC5 "a" dC5 "one_week" (3/2) dC5).toOption.map
        (fun db2 => db2.phrases.map (fun p => p.reviewHistory.length))
      = some [1] ∧
    pC5.reviewHistory.length = 0 :=
  ⟨rfl, rfl, rfl⟩

/-- C5 (amended): the review recorder performs no difficulty validation:
even a difficulty outside [0, 1] is accepted, and the record is appended
with the supplied value unchanged. -/
theorem updatePhraseReviewDate_no_validation (db : DB) (phraseId : String) (p : Phrase)
    (nrd : DateTime) (interval : String) (difficulty : ℚ) (now : DateTime)
    (hp : db.phrases.find? (fun q => q.id == phraseId) = some p)
    (_hd : ¬ (0 ≤ difficulty ∧ difficulty ≤ 1)) :
    ∃ db2, updatePhraseReviewDate db phraseId nrd interval difficulty now = .ok db2 ∧
      db2.phrases.find? (fun q => q.id == phraseId) = some
        { p with nextReviewDate := nrd
                 reviewHistory := p.reviewHistory
                   ++ [(⟨now, interval, difficulty⟩ : ReviewRecord)]
                 updatedAt := now } := by
  have hrec : updatePhraseReviewDate db phraseId nrd interval difficulty now = .ok
      ⟨db.phrases.map (fun q =>
          if (q.id == phraseId) = true then
            { q with nextReviewDate := nrd
                     reviewHistory := q.reviewHistory
                       ++ [(⟨now, interval, difficulty⟩ : ReviewRecord)]
                     updatedAt := now }
          else q),
        { db.stats with totalReviews := db.stats.totalReviews + 1
                        lastReviewDate := some now }⟩ := by
    unfold updatePhraseReviewDate
    rw [hp]
  exact ⟨_, hrec, find?_map_update db.phrases phraseId p
    (fun q =>
      { q with nextReviewDate := nrd
               reviewHistory := q.reviewHistory
                 ++ [(⟨now, interval, difficulty⟩ : ReviewRecord)]
               updatedAt := now })
    (fun q => rfl) hp⟩

/-- C5 witness: the amended theorem applies at difficulty 1.5. -/
theorem updatePhraseReviewDate_no_validation_witness :
    ∃ db2, updatePhraseReviewDate dbC5 "a" dC5 "one_week" (3/2) dC5 = .ok db2 ∧
      db2.phrases.find? (fun q => q.id == "a") = some
        { pC5 with nextReviewDate := dC5
                   reviewHistory := pC5.reviewHistory
                     ++ [(⟨dC5, "one_week", 3/2⟩ : ReviewRecord)]
                   updatedAt := dC5 } :=
  updatePhraseReviewDate_no_validation dbC5 "a" pC5 dC5 "one_week" (3/2) dC5 rfl
    (by norm_num)

def sC9 : Store := ⟨⟨[], statsZero⟩, [], [], 0, none, 0, none⟩

/-- C9 counterexample: deleting an id absent from an empty store surfaces
no error at all and still mutates the persisted state: `totalPhrases` is
decremented from 0 to −1. -/
theorem missing_id_behavior_cex :
    (deletePhrase sC9 "x").error = none ∧
    (deletePhrase sC9 "x").db.stats.totalPhrases = -1 ∧
    sC9.db.stats.totalPhrases = 0 :=
  ⟨rfl, rfl, rfl⟩

/-- C9 (amended): recording a review on an absent id throws
`Phrase not found` before any write; `deletePhrase` on an absent id,
however, surfaces no error and leaves the phrase lists unchanged while
still decrementing the persisted `totalPhrases` counter and clearing the
stats cache. -/
theorem missing_id_behavior :
    (∀ (db : DB) (phraseId : String) (nrd : DateTime) (interval : String)
        (difficulty : ℚ) (now : DateTime),
      db.phrases.find? (fun q => q.id == phraseId) = none →
      updatePhraseReviewDate db phraseId nrd interval difficulty now
        = .error "Phrase not found") ∧
    (∀ (s : Store) (id : String),
      (∀ p ∈ s.db.phrases, (p.id == id) = false) →
      (∀ p ∈ s.phrases, (p.id == id) = false) →
      (deletePhrase s id).error = s.error ∧
      (deletePhrase s id).db.phrases = s.db.phrases ∧
      (deletePhrase s id).phrases = s.phrases ∧
      (deletePhrase s id).db.stats.totalPhrases = s.db.stats.totalPhrases - 1 ∧
      (deletePhrase s id).statsCache = none) := by
  constructor
  · intro db phraseId nrd interval difficulty now hnone
    unfold updatePhraseReviewDate
    rw [hnone]
  · intro s id h1 h2
    refine ⟨rfl, ?_, ?_, rfl, rfl⟩
    · exact List.filter_eq_self.mpr (fun p hp => by simp [h1 p hp])
    · exact List.filter_eq_self.mpr (fun p hp => by simp [h2 p hp])

/-- C9 witness: both halves of the amended theorem apply concretely — the
review recorder errors on the empty store, and deleting from the empty
store keeps the (empty) phrase list. -/
theorem missing_id_behavior_witness :
    updatePhraseReviewDate ⟨[], statsZero⟩ "x" ⟨⟨2024, 1, 1⟩, 0⟩ "one_week" (1/2)
        ⟨⟨2024, 1, 1⟩, 0⟩ = .error "Phrase not found" ∧
    (deletePhrase sC9 "x").db.phrases = sC9.db.phrases :=
  ⟨missing_id_behavior.1 ⟨[], statsZero⟩ "x" ⟨⟨2024, 1, 1⟩, 0⟩ "one_week" (1/2)
      ⟨⟨2024, 1, 1⟩, 0⟩ rfl,
    (missing_id_behavior.2 sC9 "x" (by simp [sC9]) (by simp [sC9])).2.1⟩

/-- The claim's reading of `averageMastery`: every phrase with history
contributes its most recent record's difficulty — including when that
difficulty is 0 — and only phrases without history contribute 0.5. -/
def claimAverageMastery (phrases : List Phrase) : ℤ :=
  jsRound ((phrases.map (fun p =>
      match p.reviewHistory.getLast? with
      | none => 1/2
      | some r => r.difficulty)).sum / (phrases.length : ℚ) * 100)

def dC7 : DateTime := ⟨⟨2024, 4, 1⟩, 0⟩

def pC7 : Phrase := ⟨"m", "e", "j", none, [], "c", dC7,
  [⟨dC7, "tomorrow", 0⟩], dC7, dC7⟩

/-- C7: at a single phrase whose most recent review has difficulty 0 the
code returns 50, not the 0 the claim (and the code's own comment,
最新のレビューの難易度を使用) dictates: `latestReview?.difficulty || 0.5`
treats the falsy difficulty 0 as missing and substitutes 0.5. -/
theorem averageMastery_zero_difficulty :
    averageMasteryOut [pC7] = 50 ∧ claimAverageMastery [pC7] = 0 := by
  constructor
  · norm_num [averageMasteryOut, averageMasteryRaw, latestDifficultyOrHalf, jsRound, pC7]
  · norm_num [claimAverageMastery, jsRound, pC7]

def nowC6a : DateTime := ⟨⟨2024, 5, 10⟩, 36000000⟩

def nowC6b : DateTime := ⟨⟨2024, 5, 10⟩, 36060000⟩

def phC6 : Phrase := ⟨"p1", "e", "j", none, [], "c", nowC6a,
  [⟨⟨⟨2024, 5, 9⟩, 0⟩, "tomorrow", 1/2⟩], nowC6a, nowC6a⟩

def dbC6 : DB := ⟨[phC6], ⟨1, 0, 0, 0, 1, some ⟨⟨2024, 5, 9⟩, 0⟩⟩⟩

def snapC6 : StatsSnapshot := computeSnapshot dbC6 nowC6a

def storeC6 : Store := ⟨dbC6, [phC6], [phC6], 0, some snapC6, (toMillis nowC6a : ℤ), none⟩

def storeC6r : Store := handleIntervalSelect storeC6 "p1" .tomorrow (1/2) nowC6b

/-- C6: the three store mutations do invalidate the cache, but the review
path does not: in a concrete store whose cache was filled at `nowC6a`,
recording a review one minute later leaves the cached snapshot in place,
so `getStats` inside the 5-minute window serves the pre-mutation snapshot
(`totalReviews` 1) although the mutated database now yields 2. -/
theorem statsCache_invalidation :
    (∀ (s : Store) (p : Phrase), (addPhrase s p).statsCache = none) ∧
    (∀ (s : Store) (id : String) (f : Phrase → Phrase) (now : DateTime),
      (updatePhrase s id f now).statsCache = none) ∧
    (∀ (s : Store) (id : String), (deletePhrase s id).statsCache = none) ∧
    storeC6r.db.stats.totalReviews = storeC6.db.stats.totalReviews + 1 ∧
    storeC6r.statsCache = some snapC6 ∧
    (getStats storeC6r nowC6b).1 = snapC6 ∧
    (getStats storeC6r nowC6b).1.totalReviews = 1 ∧
    (computeSnapshot storeC6r.db nowC6b).totalReviews = 2 :=
  ⟨fun _ _ => rfl, fun _ _ _ _ => rfl, fun _ _ => rfl, rfl, rfl, rfl, rfl, rfl⟩
